import Mathlib

/-!
Shallow embedding of the mrpc-go repository: the request/response envelope,
the error taxonomy (errors.go), the client call path (client.go), the server
registry and dispatcher (server.go), and the server interceptor chain
(interceptor.go).  Go machine integers are modelled as Nat/Int, Go byte
slices as lists of naturals, Go maps as association lists, and Go `error`
interface values as `Option GoErr` (none = nil).
-/

namespace Mrpc

/-- Modelled from the spec (the ErrCode enumeration is declared outside the
provided sources): closed enumeration of error codes, `OK` is the zero value
meaning success; `Unknown` is the default mapping for unrecognized errors. -/
inductive ErrCode where
  | OK
  | Unknown
  | NotFound
  | Timeout
deriving DecidableEq, Repr

/-- Model of a non-nil Go `error` interface value, as observed by the code in
errors.go.  `eqDeadlineExceeded` models the identity comparison
`err == context.DeadlineExceeded`; `codeCapability` models the type assertion
`err.(interface \x7b ErrorCode() ErrCode \x7d)` (none when the assertion
fails); `msg` models `err.Error()`.  A nil Go error is `(none : Option GoErr)`. -/
structure GoErr where
  eqDeadlineExceeded : Bool
  codeCapability : Option ErrCode
  msg : String
deriving DecidableEq, Repr

/-- The value `context.DeadlineExceeded`: it compares equal to itself and does
not expose the ErrorCode capability. -/
def deadlineExceeded : GoErr :=
  { eqDeadlineExceeded := true, codeCapability := none, msg := "context deadline exceeded" }

/-- Modelled from the spec (declared outside the provided sources): request
headers carry `Timeout`, an unsigned integer count of nanoseconds, zero
meaning "no explicit timeout". -/
structure RequestHeaders where
  Timeout : Nat
deriving DecidableEq, Repr

/-- Modelled from the spec (declared outside the provided sources): the
request envelope. -/
structure Request where
  Service : String
  Method : Int
  Headers : RequestHeaders
  Body : List Nat
deriving DecidableEq, Repr

/-- Modelled from the spec (declared outside the provided sources): the
response envelope; the zero `ErrorCode` is `OK`. -/
structure Response where
  ErrorCode : ErrCode
  ErrorText : String
  Body : List Nat
deriving DecidableEq, Repr

/-- errors.go `ErrorCode`: nil maps to OK, `context.DeadlineExceeded` maps to
Timeout, an error exposing the ErrorCode capability maps to the code it
reports, anything else maps to Unknown. -/
def ErrorCode : Option GoErr → ErrCode
  | none => .OK
  | some e =>
    if e.eqDeadlineExceeded then .Timeout
    else
      match e.codeCapability with
      | some c => c
      | none => .Unknown

/-- errors.go `codeError`: an error value reporting `code` via the ErrorCode
capability and `text` via its message. -/
def codeError (code : ErrCode) (text : String) : GoErr :=
  { eqDeadlineExceeded := false, codeCapability := some code, msg := text }

/-- errors.go `Error`: nil when `code` is OK, otherwise a `codeError`. -/
def Error (code : ErrCode) (text : String) : Option GoErr :=
  if code = .OK then none else some (codeError code text)

/-- errors.go `Errorf`: `Error` applied to the `fmt.Sprintf`-formatted text;
the formatting itself is an external collaborator, so the model receives the
already-formatted text. -/
def Errorf (code : ErrCode) (formattedText : String) : Option GoErr :=
  Error code formattedText

/-- errors.go `ResponseError`: the error for the given response. -/
def ResponseError (resp : Response) : Option GoErr :=
  Error resp.ErrorCode resp.ErrorText

/-- errors.go `ErrorResponse`: a response indicating the given (non-nil)
error; `Body` is left at its zero value (nil). -/
def ErrorResponse (err : GoErr) : Response :=
  { ErrorCode := ErrorCode (some err), ErrorText := err.msg, Body := [] }

/-- errors.go `ErrorResponsef`: a response with the given code and the
`fmt.Sprintf`-formatted text (formatting external, received pre-formatted). -/
def ErrorResponsef (code : ErrCode) (formattedText : String) : Response :=
  { ErrorCode := code, ErrorText := formattedText, Body := [] }

/-- client.go `Client.Call`, write side: the request value handed to the codec
for encoding.  `remaining` models `time.Until(deadline)` when the context has
a deadline (`ctx.Deadline()` returned ok) and is `none` when it has none; it
is an Int count of nanoseconds and may be non-positive when the deadline has
passed.  The Go code overwrites `Headers.Timeout` with `uint64(timeout)` when
`timeout > 0 && (req.Headers.Timeout == 0 || uint64(timeout) < req.Headers.Timeout)`. -/
def clientWireRequest (remaining : Option Int) (req : Request) : Request :=
  match remaining with
  | none => req
  | some timeout =>
    if 0 < timeout ∧ (req.Headers.Timeout = 0 ∨ timeout.toNat < req.Headers.Timeout) then
      { req with Headers := { Timeout := timeout.toNat } }
    else
      req

/-! Decimal formatting, mirroring Go's `strconv.FormatInt(int64(m), 10)`:
minimal decimal digits, with a leading minus sign for negative values. -/

/-- Decimal digit character for a digit value below ten. -/
def digitChar : Nat → Char
  | 0 => '0'
  | 1 => '1'
  | 2 => '2'
  | 3 => '3'
  | 4 => '4'
  | 5 => '5'
  | 6 => '6'
  | 7 => '7'
  | 8 => '8'
  | _ => '9'

/-- Numeric value of a decimal digit character (0 for anything else). -/
def charVal (c : Char) : Nat :=
  match c with
  | '0' => 0
  | '1' => 1
  | '2' => 2
  | '3' => 3
  | '4' => 4
  | '5' => 5
  | '6' => 6
  | '7' => 7
  | '8' => 8
  | '9' => 9
  | _ => 0

/-- Minimal decimal digit list, fuel-based so that it reduces in the kernel;
the fuel is always sufficient when `n < fuel` (see `natDigits_unfold`). -/
def natDigitsAux (fuel n : Nat) : List Char :=
  match fuel with
  | 0 => []
  | fuel + 1 =>
    if n < 10 then [digitChar n]
    else natDigitsAux fuel (n / 10) ++ [digitChar (n % 10)]

/-- Minimal decimal digit list of a natural number, most significant first. -/
def natDigits (n : Nat) : List Char :=
  natDigitsAux (n + 1) n

theorem natDigitsAux_congr :
    ∀ (n f1 f2 : Nat), n < f1 → n < f2 → natDigitsAux f1 n = natDigitsAux f2 n := by
  intro n
  induction n using Nat.strong_induction_on with
  | _ n ih =>
    intro f1 f2 hf1 hf2
    match f1, f2 with
    | g1 + 1, g2 + 1 =>
      show (if n < 10 then [digitChar n]
          else natDigitsAux g1 (n / 10) ++ [digitChar (n % 10)]) =
        if n < 10 then [digitChar n]
        else natDigitsAux g2 (n / 10) ++ [digitChar (n % 10)]
      by_cases h : n < 10
      · simp [h]
      · have hdiv : n / 10 < n := Nat.div_lt_self (by omega) (by omega)
        rw [if_neg h, if_neg h, ih (n / 10) hdiv g1 g2 (by omega) (by omega)]

theorem natDigits_unfold (n : Nat) :
    natDigits n =
      if n < 10 then [digitChar n]
      else natDigits (n / 10) ++ [digitChar (n % 10)] := by
  show (if n < 10 then [digitChar n]
      else natDigitsAux n (n / 10) ++ [digitChar (n % 10)]) = _
  by_cases h : n < 10
  · simp [h]
  · have hdiv : n / 10 < n := Nat.div_lt_self (by omega) (by omega)
    rw [if_neg h, if_neg h,
      natDigitsAux_congr (n / 10) n (n / 10 + 1) hdiv (by omega)]
    rfl

/-- Character-list form of `strconv.FormatInt(i, 10)`. -/
def formatIntList : Int → List Char
  | .ofNat n => natDigits n
  | .negSucc n => '-' :: natDigits (n + 1)

/-- String form of `strconv.FormatInt(i, 10)`. -/
def formatInt (i : Int) : String :=
  ⟨formatIntList i⟩

/-- server.go `methodKey`: the composite registry key
`service-name ++ ":" ++ decimal method id`. -/
def methodKey (svc : String) (method : Int) : String :=
  svc ++ ":" ++ formatInt method

/-- Value of a digit list, most significant first. -/
def digitsVal (l : List Char) : Nat :=
  l.foldl (fun a c => a * 10 + charVal c) 0

theorem charVal_digitChar {d : Nat} (h : d < 10) : charVal (digitChar d) = d := by
  interval_cases d <;> rfl

theorem digitChar_ne_dash {d : Nat} (h : d < 10) : digitChar d ≠ '-' := by
  interval_cases d <;> decide

theorem foldl_val_append (l : List Char) (c : Char) (a : Nat) :
    (l ++ [c]).foldl (fun a c => a * 10 + charVal c) a =
      (l.foldl (fun a c => a * 10 + charVal c) a) * 10 + charVal c := by
  rw [List.foldl_append]
  rfl

theorem foldl_val_acc (l : List Char) (a : Nat) :
    l.foldl (fun a c => a * 10 + charVal c) a = a * 10 ^ l.length + digitsVal l := by
  induction l generalizing a with
  | nil => simp [digitsVal]
  | cons c t ih =>
    simp only [List.foldl_cons, digitsVal, List.length_cons]
    rw [ih (a * 10 + charVal c), ih (0 * 10 + charVal c)]
    ring

theorem digitsVal_natDigits (n : Nat) : digitsVal (natDigits n) = n := by
  induction n using Nat.strong_induction_on with
  | _ n ih =>
    rw [natDigits_unfold]
    by_cases h : n < 10
    · rw [if_pos h]
      simp [digitsVal, charVal_digitChar h]
    · rw [if_neg h]
      have hd : n / 10 < n := Nat.div_lt_self (by omega) (by omega)
      simp only [digitsVal] at *
      rw [foldl_val_append, ih (n / 10) hd, charVal_digitChar (Nat.mod_lt n (by omega))]
      omega

theorem natDigits_injective {m n : Nat} (h : natDigits m = natDigits n) : m = n := by
  have := digitsVal_natDigits m
  rw [h, digitsVal_natDigits n] at this
  omega

theorem natDigits_head (n : Nat) :
    ∃ d t, d < 10 ∧ natDigits n = digitChar d :: t := by
  induction n using Nat.strong_induction_on with
  | _ n ih =>
    rw [natDigits_unfold]
    by_cases h : n < 10
    · exact ⟨n, [], h, by rw [if_pos h]⟩
    · have hd : n / 10 < n := Nat.div_lt_self (by omega) (by omega)
      obtain ⟨d, t, hdlt, ht⟩ := ih (n / 10) hd
      exact ⟨d, t ++ [digitChar (n % 10)], hdlt, by rw [if_neg h, ht]; rfl⟩

theorem formatIntList_injective {i j : Int} (h : formatIntList i = formatIntList j) :
    i = j := by
  cases i with
  | ofNat m =>
    cases j with
    | ofNat n =>
      simp only [formatIntList] at h
      exact congrArg Int.ofNat (natDigits_injective h)
    | negSucc n =>
      exfalso
      simp only [formatIntList] at h
      obtain ⟨d, t, hdlt, ht⟩ := natDigits_head m
      rw [ht] at h
      exact digitChar_ne_dash hdlt (List.head_eq_of_cons_eq h)
  | negSucc m =>
    cases j with
    | ofNat n =>
      exfalso
      simp only [formatIntList] at h
      obtain ⟨d, t, hdlt, ht⟩ := natDigits_head n
      rw [ht] at h
      exact digitChar_ne_dash hdlt (List.head_eq_of_cons_eq h.symm)
    | negSucc n =>
      simp only [formatIntList, List.cons.injEq, true_and] at h
      have hmn := natDigits_injective h
      exact congrArg Int.negSucc (by omega)

theorem methodKey_right_injective {svc : String} {i j : Int}
    (h : methodKey svc i = methodKey svc j) : i = j := by
  apply formatIntList_injective
  have hdata := congrArg String.data h
  simp only [methodKey, formatInt, String.data_append] at hdata
  exact List.append_cancel_left hdata

/-! Interceptor chain (interceptor.go).  A Go `Handler` is a function
`(ctx, svc, body) -> (bytes, error)`; contexts are modelled as opaque Nat
tokens, the Go `interface\x7b\x7d` service handle as `Option Nat` (none = nil),
byte slices as `List Nat`.  Runs are instrumented with an event trace so that
"entered", "invoked" and argument values are observable. -/

/-- Observable events of one dispatched call. -/
inductive Event where
  /-- `context.WithTimeout` derived a child context with the given timeout. -/
  | withTimeout (timeoutNs : Nat)
  /-- The interceptor carrying this tag was entered. -/
  | enter (tag : Nat)
  /-- The terminal handler was invoked with these arguments. -/
  | handler (ctx : Nat) (svc : Option Nat) (body : List Nat)
deriving DecidableEq, Repr

/-- Semantic model of a Go `Handler` function: from context token, service
handle and body to result bytes and error. -/
def HandlerFn : Type :=
  Nat → Option Nat → List Nat → List Nat × Option GoErr

/-- interceptor.go `CallInfo`: details about a method call on the server
side. -/
structure CallInfo where
  Service : Option Nat
  Method : String
  Body : List Nat

/-- Semantic model of one `ServerInterceptor` that invokes its `next`
argument exactly once (the hypothesis of the chain-ordering claims):
it transforms the context, service and body arguments it passes on to
`next`, and post-processes the result `next` returns.  `tag` identifies
the interceptor in the event trace. -/
structure OnceInterceptor where
  tag : Nat
  ctxArg : Nat → Nat
  svcArg : Option Nat → Option Nat
  bodyArg : List Nat → List Nat
  post : List Nat × Option GoErr → List Nat × Option GoErr

/-- Invoking a terminal handler records a handler event and returns the
handler's result. -/
def runHandler (h : HandlerFn) (ctx : Nat) (svc : Option Nat) (body : List Nat) :
    List Event × (List Nat × Option GoErr) :=
  ([Event.handler ctx svc body], h ctx svc body)

/-- Invoking a once-calling interceptor with the given `next` continuation:
the interceptor is entered, calls `next` exactly once with its transformed
arguments, and post-processes the result. -/
def invokeOnce (i : OnceInterceptor) (ctx : Nat) (call : CallInfo)
    (next : Nat → Option Nat → List Nat → List Event × (List Nat × Option GoErr)) :
    List Event × (List Nat × Option GoErr) :=
  let r := next (i.ctxArg ctx) (i.svcArg call.Service) (i.bodyArg call.Body)
  (Event.enter i.tag :: r.1, i.post r.2)

/-- interceptor.go, default case of `serverInterceptorChain`: the shared
mutable counter `idx` becomes an explicit argument.  The Go closure `next`
increments `idx` and then either invokes the terminal handler `h` with the
closed-over `call.Service`/`call.Body` (when the counter reaches the end) or
enters the next interceptor; its own `svc`/`body` parameters are discarded
and only `ctx` is passed along.  (In every run reachable from `idx = 0` with
once-calling interceptors the counter never exceeds the length, so the Go
test `idx == len(interceptors)` coincides with this bounds test.) -/
def chainNext (ints : List OnceInterceptor) (h : HandlerFn) (call : CallInfo)
    (idx : Nat) (ctx : Nat) (svc : Option Nat) (body : List Nat) :
    List Event × (List Nat × Option GoErr) :=
  if hlt : idx + 1 < ints.length then
    invokeOnce (ints.get ⟨idx + 1, hlt⟩) ctx call (chainNext ints h call (idx + 1))
  else
    runHandler h ctx call.Service call.Body
termination_by ints.length - idx
decreasing_by
  omega

/-- interceptor.go `serverInterceptorChain`: zero interceptors degenerate to
directly invoking the handler with the call's service and body; one
interceptor is the chain itself (with the handler as its `next`); two or
more build the counter-advancing pipeline starting at interceptor 0. -/
def serverInterceptorChain (ints : List OnceInterceptor) (ctx : Nat)
    (call : CallInfo) (h : HandlerFn) : List Event × (List Nat × Option GoErr) :=
  match ints with
  | [] => runHandler h ctx call.Service call.Body
  | [i] => invokeOnce i ctx call (runHandler h)
  | i0 :: _ :: _ => invokeOnce i0 ctx call (chainNext ints h call 0)

/-- Context token reaching the terminal handler: each interceptor's context
transformation applied in registration order. -/
def ctxAfter (l : List OnceInterceptor) (ctx : Nat) : Nat :=
  l.foldl (fun c i => i.ctxArg c) ctx

/-- Result post-processing on the way back out: later interceptors apply
their transformation first. -/
def postAfter (l : List OnceInterceptor) (r : List Nat × Option GoErr) :
    List Nat × Option GoErr :=
  l.foldr (fun i r => i.post r) r

theorem chainNext_spec (ints : List OnceInterceptor) (h : HandlerFn) (call : CallInfo) :
    ∀ n idx ctx svc body, ints.length - idx = n →
      chainNext ints h call idx ctx svc body =
        (((ints.drop (idx + 1)).map fun i => Event.enter i.tag) ++
            [Event.handler (ctxAfter (ints.drop (idx + 1)) ctx) call.Service call.Body],
          postAfter (ints.drop (idx + 1))
            (h (ctxAfter (ints.drop (idx + 1)) ctx) call.Service call.Body)) := by
  intro n
  induction n with
  | zero =>
    intro idx ctx svc body hn
    have hge : ints.length ≤ idx := by omega
    rw [chainNext]
    have hnlt : ¬(idx + 1 < ints.length) := by omega
    simp only [hnlt, dif_neg, not_false_iff]
    rw [List.drop_eq_nil_of_le (by omega)]
    rfl
  | succ n ih =>
    intro idx ctx svc body hn
    rw [chainNext]
    by_cases hlt : idx + 1 < ints.length
    · simp only [hlt, dif_pos]
      rw [invokeOnce]
      have hrec := ih (idx + 1) ((ints.get ⟨idx + 1, hlt⟩).ctxArg ctx)
        ((ints.get ⟨idx + 1, hlt⟩).svcArg call.Service)
        ((ints.get ⟨idx + 1, hlt⟩).bodyArg call.Body) (by omega)
      rw [hrec]
      have hdrop : ints.drop (idx + 1) = ints.get ⟨idx + 1, hlt⟩ :: ints.drop (idx + 2) := by
        rw [List.drop_eq_getElem_cons hlt]
        rfl
      rw [hdrop]
      rfl
    · simp only [hlt, dif_neg, not_false_iff]
      rw [List.drop_eq_nil_of_le (by omega)]
      rfl

theorem serverInterceptorChain_two (i0 i1 : OnceInterceptor) (t : List OnceInterceptor)
    (ctx : Nat) (call : CallInfo) (h : HandlerFn) :
    serverInterceptorChain (i0 :: i1 :: t) ctx call h =
      (((i0 :: i1 :: t).map fun i => Event.enter i.tag) ++
          [Event.handler (ctxAfter (i0 :: i1 :: t) ctx) call.Service call.Body],
        postAfter (i0 :: i1 :: t)
          (h (ctxAfter (i0 :: i1 :: t) ctx) call.Service call.Body)) := by
  have hspec := chainNext_spec (i0 :: i1 :: t) h call ((i0 :: i1 :: t).length) 0
    (i0.ctxArg ctx) (i0.svcArg call.Service) (i0.bodyArg call.Body) (by omega)
  show (Event.enter i0.tag ::
      (chainNext (i0 :: i1 :: t) h call 0 (i0.ctxArg ctx) (i0.svcArg call.Service)
        (i0.bodyArg call.Body)).1,
    i0.post (chainNext (i0 :: i1 :: t) h call 0 (i0.ctxArg ctx) (i0.svcArg call.Service)
        (i0.bodyArg call.Body)).2) = _
  rw [hspec]
  rfl

/-! Server / dispatcher (server.go).  Go maps become association lists with
map-assignment insert (replace the existing binding, otherwise append). -/

/-- server.go `MethodSpec`: a method id (Go int) and its handler. -/
structure MethodSpec where
  ID : Int
  Handler : HandlerFn

/-- server.go `ServiceSpec`: a service name, an opaque service handle
(`interface\x7b\x7d`, none = nil) and the method specifications. -/
structure ServiceSpec where
  Name : String
  Service : Option Nat
  Methods : List MethodSpec

/-- server.go `method` (registry entry): the service handle paired with the
handler. -/
structure MethodEntry where
  svc : Option Nat
  handler : HandlerFn

/-- Go map lookup `m[k]` on the association-list model. -/
def mapLookup {α : Type} (m : List (String × α)) (k : String) : Option α :=
  match m with
  | [] => none
  | (k', v) :: rest => if k' = k then some v else mapLookup rest k

/-- Go map assignment `m[k] = v` on the association-list model: replace the
binding if the key is present, otherwise append it. -/
def mapInsert {α : Type} (m : List (String × α)) (k : String) (v : α) :
    List (String × α) :=
  match m with
  | [] => [(k, v)]
  | (k', v') :: rest =>
    if k' = k then (k, v) :: rest else (k', v') :: mapInsert rest k v

/-- server.go `Server`: the set of registered service names, the method
registry, and the interceptors the composed chain was built from. -/
structure Server where
  services : List String
  methods : List (String × MethodEntry)
  interceptors : List OnceInterceptor

/-- server.go `NewServer` with the given interceptor options applied: empty
registry, composed interceptor chain. -/
def NewServer (ints : List OnceInterceptor) : Server :=
  { services := [], methods := [], interceptors := ints }

/-- server.go `Server.Register`.  Go panics are modelled as a `some` panic
message in the second component; the first component is the server state
afterwards (the original state when the function panics, since all three
validation checks precede any mutation in the source). -/
def Server.Register (s : Server) (svc : ServiceSpec) : Server × Option String :=
  if svc.Name = "" then (s, some "missing service name")
  else if svc.Service = none then (s, some "missing service")
  else if svc.Name ∈ s.services then
    (s, some ("service " ++ svc.Name ++ " already registered"))
  else
    ({ s with
        methods := svc.Methods.foldl
          (fun acc m =>
            mapInsert acc (methodKey svc.Name m.ID)
              { svc := svc.Service, handler := m.Handler })
          s.methods,
        services := svc.Name :: s.services },
      none)

/-- server.go `Server.Execute`, instrumented with the event trace of the
dispatched call.  `context.WithTimeout` (derived only when
`req.Headers.Timeout != 0`) is modelled as a fresh child token `ctx + 1`
together with a `withTimeout` trace event. -/
def Server.Execute (s : Server) (ctx : Nat) (req : Request) :
    Response × List Event :=
  let key := methodKey req.Service req.Method
  match mapLookup s.methods key with
  | none => (ErrorResponsef .NotFound ("method " ++ key ++ " not found"), [])
  | some m =>
    let call : CallInfo := { Service := m.svc, Method := key, Body := req.Body }
    let ctxDerived := if req.Headers.Timeout ≠ 0 then ctx + 1 else ctx
    let ctxEvents :=
      if req.Headers.Timeout ≠ 0 then [Event.withTimeout req.Headers.Timeout] else []
    let run := serverInterceptorChain s.interceptors ctxDerived call m.handler
    let resp :=
      match run.2.2 with
      | some e => ErrorResponse e
      | none => { ErrorCode := .OK, ErrorText := "", Body := run.2.1 }
    (resp, ctxEvents ++ run.1)

/-- server.go `Server.ServeMRPC`.  The msgpack codec is an external
collaborator: `decodeReq` is the outcome of `msgpack.Decode` on the byte
source, `encodeResp` the outcome of `msgpack.Encode` for a given response
value.  The first component is the response value encoded to the sink, the
second the error `ServeMRPC` returns (the encode outcome). -/
def Server.ServeMRPC (s : Server) (ctx : Nat)
    (decodeReq : Except GoErr Request) (encodeResp : Response → Option GoErr) :
    Response × Option GoErr :=
  let resp :=
    match decodeReq with
    | .ok req => (s.Execute ctx req).1
    | .error e => ErrorResponsef .Unknown ("decode request: " ++ e.msg)
  (resp, encodeResp resp)

theorem mapLookup_mapInsert {α : Type} (m : List (String × α)) (k : String)
    (v : α) (key : String) :
    mapLookup (mapInsert m k v) key = if k = key then some v else mapLookup m key := by
  induction m with
  | nil =>
    by_cases hk : k = key <;> simp [mapInsert, mapLookup, hk]
  | cons cell rest ih =>
    obtain ⟨k', v'⟩ := cell
    rw [mapInsert]
    by_cases hcell : k' = k
    · subst hcell
      by_cases hk : k' = key <;> simp [mapLookup, hk]
    · simp only [hcell, if_neg, ite_false]
      by_cases hk : k' = key
      · subst hk
        have hkk : ¬(k = k') := fun hh => hcell hh.symm
        simp [mapLookup, hkk]
      · simp [mapLookup, hk, ih]

theorem mapLookup_foldl_mapInsert {α σ : Type} (kf : σ → String) (vf : σ → α) :
    ∀ (l : List σ) (m0 : List (String × α)) (key : String),
      mapLookup (l.foldl (fun acc x => mapInsert acc (kf x) (vf x)) m0) key =
        match (l.filter fun x => kf x == key).getLast? with
        | some x => some (vf x)
        | none => mapLookup m0 key := by
  intro l
  induction l with
  | nil =>
    intro m0 key
    rfl
  | cons x t ih =>
    intro m0 key
    rw [List.foldl_cons, ih]
    by_cases hpx : kf x = key
    · have hfc : (x :: t).filter (fun y => kf y == key) =
          x :: t.filter (fun y => kf y == key) := by
        simp [List.filter_cons, hpx]
      rw [hfc]
      match hlast : (t.filter fun y => kf y == key).getLast? with
      | some y =>
        have hne : t.filter (fun y => kf y == key) ≠ [] := by
          intro hnil
          rw [hnil] at hlast
          exact Option.noConfusion hlast
        match hf : t.filter fun y => kf y == key with
        | [] => exact absurd hf hne
        | z :: zs =>
          rw [hf] at hlast
          rw [List.getLast?_cons_cons, hlast]
      | none =>
        have hnil : t.filter (fun y => kf y == key) = [] :=
          List.getLast?_eq_none_iff.mp hlast
        rw [hnil]
        have hsing : ([x] : List σ).getLast? = some x := rfl
        rw [hsing]
        show mapLookup (mapInsert m0 (kf x) (vf x)) key = some (vf x)
        rw [mapLookup_mapInsert]
        simp [hpx]
    · have hfc : (x :: t).filter (fun y => kf y == key) =
          t.filter (fun y => kf y == key) := by
        simp [List.filter_cons, hpx]
      rw [hfc]
      match hlast : (t.filter fun y => kf y == key).getLast? with
      | some y => rfl
      | none =>
        rw [mapLookup_mapInsert]
        simp [hpx]

/-! Sample values used by the witnesses. -/

/-- Sample handler returning a body and no error. -/
def okHandler : HandlerFn := fun _ _ _ => ([7, 8], none)

/-- Sample handler returning a coded error. -/
def errHandler : HandlerFn := fun _ _ _ => ([], some (codeError .NotFound "nope"))

/-- Sample server with one ok method (`svc:1`) and one failing method
(`svc:2`), no interceptors. -/
def sampleServer : Server :=
  { services := ["svc"],
    methods :=
      [(methodKey "svc" 1, { svc := some 5, handler := okHandler }),
        (methodKey "svc" 2, { svc := some 5, handler := errHandler })],
    interceptors := [] }

/-- Sample request for the ok method. -/
def reqOk : Request :=
  { Service := "svc", Method := 1, Headers := { Timeout := 0 }, Body := [] }

/-- Sample request for the failing method. -/
def reqErr : Request :=
  { Service := "svc", Method := 2, Headers := { Timeout := 0 }, Body := [] }

/-- Sample plain error: no capability, not deadline-exceeded. -/
def plainErr : GoErr :=
  { eqDeadlineExceeded := false, codeCapability := none, msg := "m" }

/-- Hypothetical error that both equals `context.DeadlineExceeded` and
reports a code, exercising the precedence of the deadline case. -/
def deadlineCodedErr : GoErr :=
  { eqDeadlineExceeded := true, codeCapability := some .NotFound, msg := "m" }

/-! Claim theorems. -/

/-- C7: the error-to-code mapping `ErrorCode` is total over all modelled
error values: nil maps to OK, the deadline-exceeded error maps to Timeout,
any error exposing the "reports its code" capability maps to the code it
reports, every other error maps to Unknown, and the deadline-exceeded case
takes precedence over the capability case. -/
theorem errorCode_total_mapping :
    ErrorCode none = .OK ∧
    (∀ e : GoErr, e.eqDeadlineExceeded = true → ErrorCode (some e) = .Timeout) ∧
    (∀ (e : GoErr) (c : ErrCode), e.eqDeadlineExceeded = false →
      e.codeCapability = some c → ErrorCode (some e) = c) ∧
    (∀ e : GoErr, e.eqDeadlineExceeded = false → e.codeCapability = none →
      ErrorCode (some e) = .Unknown) ∧
    (∀ (e : GoErr) (c : ErrCode), e.eqDeadlineExceeded = true →
      e.codeCapability = some c → ErrorCode (some e) = .Timeout) := by
  refine ⟨rfl, ?_, ?_, ?_, ?_⟩
  · intro e hd
    simp [ErrorCode, hd]
  · intro e c hd hc
    simp [ErrorCode, hd, hc]
  · intro e hd hc
    simp [ErrorCode, hd, hc]
  · intro e c hd _
    simp [ErrorCode, hd]

/-- Witness for C7: the mapping evaluated at `context.DeadlineExceeded`, a
coded error, a plain error, and a hypothetical error that both equals
`context.DeadlineExceeded` and reports a code. -/
theorem errorCode_total_mapping_witness :
    ErrorCode (some deadlineExceeded) = .Timeout ∧
    ErrorCode (some (codeError .NotFound "x")) = .NotFound ∧
    ErrorCode (some plainErr) = .Unknown ∧
    ErrorCode (some deadlineCodedErr) = .Timeout :=
  ⟨errorCode_total_mapping.2.1 deadlineExceeded rfl,
    errorCode_total_mapping.2.2.1 (codeError .NotFound "x") .NotFound rfl rfl,
    errorCode_total_mapping.2.2.2.1 plainErr rfl rfl,
    errorCode_total_mapping.2.2.2.2 deadlineCodedErr .NotFound rfl rfl⟩

/-- C8 counterexample: for the non-nil error `codeError OK "boom"` (an error
value whose "reports its code" capability reports OK), the round trip
`ResponseError (ErrorResponse err)` yields nil, not a non-nil error, so the
claim as stated fails at this input. -/
theorem error_roundtrip_counterexample :
    ErrorResponse (codeError .OK "boom") =
      { ErrorCode := .OK, ErrorText := "boom", Body := [] } ∧
    ResponseError (ErrorResponse (codeError .OK "boom")) = none :=
  ⟨rfl, rfl⟩

/-- C8 amended: for every non-nil error `e`,
`(ErrorResponse e).ErrorCode = ErrorCode (some e)`; and whenever the mapped
code is not OK (which excludes only errors whose capability reports OK),
`ResponseError (ErrorResponse e)` yields a non-nil error whose recovered
code equals `ErrorCode (some e)` and whose message equals `e`'s message. -/
theorem error_roundtrip_amended :
    ∀ e : GoErr,
      (ErrorResponse e).ErrorCode = ErrorCode (some e) ∧
      (ErrorCode (some e) ≠ .OK →
        ∃ e', ResponseError (ErrorResponse e) = some e' ∧
          ErrorCode (some e') = ErrorCode (some e) ∧ e'.msg = e.msg) := by
  intro e
  refine ⟨rfl, ?_⟩
  intro hne
  refine ⟨codeError (ErrorCode (some e)) e.msg, ?_, ?_, rfl⟩
  · simp [ResponseError, ErrorResponse, Error, hne]
  · simp [ErrorCode, codeError]

/-- Witness for C8 amended: the round trip evaluated at the deadline-exceeded
error. -/
theorem error_roundtrip_amended_witness :
    (ErrorResponse deadlineExceeded).ErrorCode = ErrorCode (some deadlineExceeded) ∧
    ∃ e', ResponseError (ErrorResponse deadlineExceeded) = some e' ∧
      ErrorCode (some e') = ErrorCode (some deadlineExceeded) ∧
      e'.msg = deadlineExceeded.msg :=
  ⟨(error_roundtrip_amended deadlineExceeded).1,
    (error_roundtrip_amended deadlineExceeded).2 (by decide)⟩

/-- C9: for every code other than OK and every text, `Error code text` is a
non-nil error whose recovered code is `code` and whose message is `text`;
`Error OK text` is nil for every text; `Errorf` behaves identically after
its message has been formatted. -/
theorem error_constructor_spec :
    ∀ (code : ErrCode) (text : String),
      Error .OK text = none ∧
      (code ≠ .OK →
        ∃ e, Error code text = some e ∧ ErrorCode (some e) = code ∧ e.msg = text) ∧
      Errorf code text = Error code text := by
  intro code text
  refine ⟨rfl, ?_, rfl⟩
  intro hne
  refine ⟨codeError code text, ?_, ?_, rfl⟩
  · simp [Error, hne]
  · simp [ErrorCode, codeError]

/-- Witness for C9: `Error` evaluated at the NotFound code. -/
theorem error_constructor_spec_witness :
    Error .OK "boom" = none ∧
    (∃ e, Error .NotFound "boom" = some e ∧ ErrorCode (some e) = .NotFound ∧
      e.msg = "boom") ∧
    Errorf .NotFound "boom" = Error .NotFound "boom" :=
  ⟨(error_constructor_spec .NotFound "boom").1,
    (error_constructor_spec .NotFound "boom").2.1 (by decide),
    (error_constructor_spec .NotFound "boom").2.2⟩

/-- C2: the request the client writes carries as `Headers.Timeout` the
remaining time `R` when no explicit timeout was set and `R > 0`, the minimum
of the explicit timeout and `R` when both are positive, and the original
timeout unchanged whenever the context has no deadline or `R <= 0`. -/
theorem client_timeout_selection :
    ∀ (R : Int) (req : Request),
      (req.Headers.Timeout = 0 → 0 < R →
        (clientWireRequest (some R) req).Headers.Timeout = R.toNat) ∧
      (0 < req.Headers.Timeout → 0 < R →
        (clientWireRequest (some R) req).Headers.Timeout =
          min req.Headers.Timeout R.toNat) ∧
      clientWireRequest none req = req ∧
      (R ≤ 0 → clientWireRequest (some R) req = req) := by
  intro R req
  refine ⟨?_, ?_, rfl, ?_⟩
  · intro h0 hR
    simp [clientWireRequest, hR, h0]
  · intro hH hR
    by_cases hlt : R.toNat < req.Headers.Timeout
    · rw [Nat.min_eq_right (Nat.le_of_lt hlt)]
      simp [clientWireRequest, hR, hlt]
    · rw [Nat.min_eq_left (Nat.le_of_not_lt hlt)]
      have hne : ¬req.Headers.Timeout = 0 := by omega
      simp [clientWireRequest, hR, hlt, hne]
  · intro hR
    have hnot : ¬(0 < R) := by omega
    simp [clientWireRequest, hnot]

/-- Witness for C2 (the spec's three examples, in nanosecond counts scaled
down): unset header with 1 unit remaining; header 1 with 60 remaining;
header 60 with 1 remaining; header 60 with an expired deadline. -/
theorem client_timeout_selection_witness :
    (clientWireRequest (some 1)
        { Service := "s", Method := 0, Headers := { Timeout := 0 }, Body := [] }
      ).Headers.Timeout = 1 ∧
    (clientWireRequest (some 60)
        { Service := "s", Method := 0, Headers := { Timeout := 1 }, Body := [] }
      ).Headers.Timeout = 1 ∧
    (clientWireRequest (some 1)
        { Service := "s", Method := 0, Headers := { Timeout := 60 }, Body := [] }
      ).Headers.Timeout = 1 ∧
    clientWireRequest (some (-3))
        { Service := "s", Method := 0, Headers := { Timeout := 60 }, Body := [] } =
      { Service := "s", Method := 0, Headers := { Timeout := 60 }, Body := [] } := by
  refine ⟨?_, ?_, ?_, ?_⟩
  · have h := (client_timeout_selection 1
      { Service := "s", Method := 0, Headers := { Timeout := 0 }, Body := [] }).1
      rfl (by decide)
    rw [h]
    decide
  · have h := (client_timeout_selection 60
      { Service := "s", Method := 0, Headers := { Timeout := 1 }, Body := [] }).2.1
      (by decide) (by decide)
    rw [h]
    decide
  · have h := (client_timeout_selection 1
      { Service := "s", Method := 0, Headers := { Timeout := 60 }, Body := [] }).2.1
      (by decide) (by decide)
    rw [h]
    decide
  · exact (client_timeout_selection (-3)
      { Service := "s", Method := 0, Headers := { Timeout := 60 }, Body := [] }).2.2.2
      (by decide)

/-- C1: with zero interceptors the chain directly invokes the resolved
handler with the call's service and body; with one or more once-calling
interceptors, the run's event trace enters each interceptor exactly once, in
registration order with interceptor 0 outermost, and the terminal handler
executes exactly once, after the last interceptor (the final trace event,
emitted by the last interceptor's `next`). -/
theorem interceptor_chain_order :
    ∀ (i0 : OnceInterceptor) (rest : List OnceInterceptor) (ctx : Nat)
      (call : CallInfo) (h : HandlerFn),
      serverInterceptorChain [] ctx call h =
        ([Event.handler ctx call.Service call.Body], h ctx call.Service call.Body) ∧
      ∃ hctx hsvc hbody,
        (serverInterceptorChain (i0 :: rest) ctx call h).1 =
          ((i0 :: rest).map fun i => Event.enter i.tag) ++
            [Event.handler hctx hsvc hbody] := by
  intro i0 rest ctx call h
  refine ⟨rfl, ?_⟩
  match rest with
  | [] =>
    exact ⟨i0.ctxArg ctx, i0.svcArg call.Service, i0.bodyArg call.Body, rfl⟩
  | i1 :: t =>
    refine ⟨ctxAfter (i0 :: i1 :: t) ctx, call.Service, call.Body, ?_⟩
    rw [serverInterceptorChain_two]

/-- C10: with two or more interceptors, the service and body arguments an
interceptor passes to its `next` handler are discarded — the terminal
handler is invoked with the original CallInfo's Service and Body and only
the context argument is propagated (through every interceptor's `ctxArg`);
with exactly one interceptor the terminal handler receives whatever context,
service and body arguments that interceptor passes to `next`. -/
theorem interceptor_chain_argument_propagation :
    ∀ (i i0 i1 : OnceInterceptor) (t : List OnceInterceptor) (ctx : Nat)
      (call : CallInfo) (h : HandlerFn),
      (serverInterceptorChain (i0 :: i1 :: t) ctx call h).1 =
        ((i0 :: i1 :: t).map fun j => Event.enter j.tag) ++
          [Event.handler (ctxAfter (i0 :: i1 :: t) ctx) call.Service call.Body] ∧
      serverInterceptorChain [i] ctx call h =
        ([Event.enter i.tag,
            Event.handler (i.ctxArg ctx) (i.svcArg call.Service) (i.bodyArg call.Body)],
          i.post (h (i.ctxArg ctx) (i.svcArg call.Service) (i.bodyArg call.Body))) := by
  intro i i0 i1 t ctx call h
  refine ⟨?_, rfl⟩
  rw [serverInterceptorChain_two]

/-- C4: when the composite key of the request is absent from the registry,
Execute returns a NotFound response with text "method <key> not found", and
the empty event trace shows that no handler was invoked and no context was
derived. -/
theorem execute_not_found :
    ∀ (s : Server) (ctx : Nat) (req : Request),
      mapLookup s.methods (methodKey req.Service req.Method) = none →
      s.Execute ctx req =
        ({ ErrorCode := .NotFound,
            ErrorText := "method " ++ methodKey req.Service req.Method ++ " not found",
            Body := [] },
          []) := by
  intro s ctx req hmiss
  simp [Server.Execute, hmiss, ErrorResponsef]

/-- Witness for C4: the unregistered service "x", method 3, on a fresh
server yields exactly ErrorText "method x:3 not found". -/
theorem execute_not_found_witness :
    (NewServer []).Execute 0
        { Service := "x", Method := 3, Headers := { Timeout := 0 }, Body := [] } =
      ({ ErrorCode := .NotFound, ErrorText := "method x:3 not found", Body := [] },
        []) := by
  have h := execute_not_found (NewServer []) 0
    { Service := "x", Method := 3, Headers := { Timeout := 0 }, Body := [] } rfl
  rw [h]
  decide

/-- C5: for a registered method, when the composed interceptor chain returns
(body, nil) Execute produces an OK response carrying that body, and when it
returns a non-nil error Execute produces a response with the error's mapped
code and message and no body. -/
theorem execute_dispatch_result :
    ∀ (s : Server) (ctx : Nat) (req : Request) (m : MethodEntry),
      mapLookup s.methods (methodKey req.Service req.Method) = some m →
      ∀ (tr : List Event) (body : List Nat) (err : Option GoErr),
        serverInterceptorChain s.interceptors
            (if req.Headers.Timeout ≠ 0 then ctx + 1 else ctx)
            { Service := m.svc, Method := methodKey req.Service req.Method,
              Body := req.Body }
            m.handler = (tr, (body, err)) →
        (err = none →
          (s.Execute ctx req).1 = { ErrorCode := .OK, ErrorText := "", Body := body }) ∧
        (∀ e, err = some e →
          (s.Execute ctx req).1 =
            { ErrorCode := ErrorCode (some e), ErrorText := e.msg, Body := [] }) := by
  intro s ctx req m hm tr body err hrun
  constructor
  · intro hnone
    subst hnone
    simp only [Server.Execute, hm, hrun]
  · intro e he
    subst he
    simp only [Server.Execute, hm, hrun, ErrorResponse]

/-- Witness for C5: the sample server's ok method yields an OK response with
the handler's body; its failing method yields the error's code and text. -/
theorem execute_dispatch_result_witness :
    (sampleServer.Execute 0 reqOk).1 =
      { ErrorCode := .OK, ErrorText := "", Body := [7, 8] } ∧
    (sampleServer.Execute 0 reqErr).1 =
      { ErrorCode := .NotFound, ErrorText := "nope", Body := [] } := by
  constructor
  · have h := (execute_dispatch_result sampleServer 0 reqOk
      { svc := some 5, handler := okHandler } rfl
      [Event.handler 0 (some 5) []] [7, 8] none rfl).1 rfl
    rw [h]
  · have h := (execute_dispatch_result sampleServer 0 reqErr
      { svc := some 5, handler := errHandler } rfl
      [Event.handler 0 (some 5) []] [] (some (codeError .NotFound "nope")) rfl).2
      (codeError .NotFound "nope") rfl
    rw [h]
    decide

/-- C6: Register fails hard exactly when the name is empty, the service
handle is nil, or the name was already registered (panic modelled as a
`some` message); on a panic the server state is unchanged; on success every
method specification is inserted under key "<name>:<id>", a duplicate method
ID within the same specification resolved last-write-wins. -/
theorem register_contract :
    ∀ (s : Server) (svcSpec : ServiceSpec),
      ((s.Register svcSpec).2 ≠ none ↔
        (svcSpec.Name = "" ∨ svcSpec.Service = none ∨ svcSpec.Name ∈ s.services)) ∧
      ((s.Register svcSpec).2 ≠ none → (s.Register svcSpec).1 = s) ∧
      ((s.Register svcSpec).2 = none →
        ∀ m ∈ svcSpec.Methods,
          mapLookup (s.Register svcSpec).1.methods (methodKey svcSpec.Name m.ID) =
            ((svcSpec.Methods.filter fun mm => mm.ID == m.ID).getLast?).map
              fun mm => { svc := svcSpec.Service, handler := mm.Handler }) := by
  intro s svcSpec
  by_cases h1 : svcSpec.Name = ""
  · refine ⟨?_, ?_, ?_⟩
    · simp [Server.Register, h1]
    · intro _
      simp [Server.Register, h1]
    · intro hok
      exfalso
      simp [Server.Register, h1] at hok
  · by_cases h2 : svcSpec.Service = none
    · refine ⟨?_, ?_, ?_⟩
      · simp [Server.Register, h1, h2]
      · intro _
        simp [Server.Register, h1, h2]
      · intro hok
        exfalso
        simp [Server.Register, h1, h2] at hok
    · by_cases h3 : svcSpec.Name ∈ s.services
      · refine ⟨?_, ?_, ?_⟩
        · simp [Server.Register, h1, h2, h3]
        · intro _
          simp [Server.Register, h1, h2, h3]
        · intro hok
          exfalso
          simp [Server.Register, h1, h2, h3] at hok
      · refine ⟨?_, ?_, ?_⟩
        · simp [Server.Register, h1, h2, h3]
        · intro hbad
          exfalso
          simp [Server.Register, h1, h2, h3] at hbad
        · intro _ m hmem
          have hmeth : (s.Register svcSpec).1.methods =
              svcSpec.Methods.foldl
                (fun acc mm =>
                  mapInsert acc (methodKey svcSpec.Name mm.ID)
                    { svc := svcSpec.Service, handler := mm.Handler })
                s.methods := by
            simp [Server.Register, h1, h2, h3]
          rw [hmeth,
            mapLookup_foldl_mapInsert
              (fun mm => methodKey svcSpec.Name mm.ID)
              (fun mm => ({ svc := svcSpec.Service, handler := mm.Handler } : MethodEntry))
              svcSpec.Methods s.methods (methodKey svcSpec.Name m.ID)]
          have hfcongr :
              (svcSpec.Methods.filter fun mm =>
                  methodKey svcSpec.Name mm.ID == methodKey svcSpec.Name m.ID) =
                svcSpec.Methods.filter fun mm => mm.ID == m.ID := by
            apply List.filter_congr
            intro x _
            by_cases hid : x.ID = m.ID
            · simp [hid]
            · have hkey : methodKey svcSpec.Name x.ID ≠ methodKey svcSpec.Name m.ID :=
                fun hk => hid (methodKey_right_injective hk)
              simp [hid, hkey]
          rw [hfcongr]
          have hne : svcSpec.Methods.filter (fun mm => mm.ID == m.ID) ≠ [] := by
            intro hnil
            have : m ∈ svcSpec.Methods.filter fun mm => mm.ID == m.ID :=
              List.mem_filter.mpr ⟨hmem, by simp⟩
            rw [hnil] at this
            exact List.not_mem_nil m this
          cases hlast : (svcSpec.Methods.filter fun mm => mm.ID == m.ID).getLast? with
          | some y => rfl
          | none => exact absurd (List.getLast?_eq_none_iff.mp hlast) hne

/-- Witness for C6: registering an empty name panics and leaves the fresh
server unchanged; registering service "a" with two methods of ID 1 succeeds
and resolves the duplicate last-write-wins (the second handler ends up under
"a:1"). -/
theorem register_contract_witness :
    ((NewServer []).Register { Name := "", Service := none, Methods := [] }).2 ≠ none ∧
    ((NewServer []).Register { Name := "", Service := none, Methods := [] }).1 =
      NewServer [] ∧
    mapLookup
        ((NewServer []).Register
          { Name := "a", Service := some 1,
            Methods := [{ ID := 1, Handler := okHandler },
              { ID := 1, Handler := errHandler }] }).1.methods
        (methodKey "a" 1) =
      some { svc := some 1, handler := errHandler } := by
  refine ⟨?_, ?_, ?_⟩
  · exact (register_contract (NewServer [])
      { Name := "", Service := none, Methods := [] }).1.mpr (Or.inl rfl)
  · exact (register_contract (NewServer [])
      { Name := "", Service := none, Methods := [] }).2.1 (by simp [Server.Register])
  · have h := (register_contract (NewServer [])
      { Name := "a", Service := some 1,
        Methods := [{ ID := 1, Handler := okHandler },
          { ID := 1, Handler := errHandler }] }).2.2 rfl
      { ID := 1, Handler := errHandler } (List.Mem.tail _ (List.Mem.head _))
    rw [h]
    rfl

/-- C3: if decoding fails ServeMRPC skips dispatch (the response does not
depend on the server) and encodes an Unknown response whose text carries the
decode error's message; if decoding succeeds it dispatches via Execute; and
the error ServeMRPC returns is exactly the outcome of encoding the final
response (non-nil iff that encoding fails). -/
theorem serveMRPC_spec :
    ∀ (s : Server) (ctx : Nat) (dec : Except GoErr Request)
      (enc : Response → Option GoErr),
      (∀ e, dec = .error e →
        (s.ServeMRPC ctx dec enc).1 =
          { ErrorCode := .Unknown, ErrorText := "decode request: " ++ e.msg,
            Body := [] } ∧
        ∀ s' : Server, (s'.ServeMRPC ctx dec enc).1 = (s.ServeMRPC ctx dec enc).1) ∧
      (∀ req, dec = .ok req →
        (s.ServeMRPC ctx dec enc).1 = (s.Execute ctx req).1) ∧
      (s.ServeMRPC ctx dec enc).2 = enc (s.ServeMRPC ctx dec enc).1 ∧
      ((s.ServeMRPC ctx dec enc).2 ≠ none ↔ enc (s.ServeMRPC ctx dec enc).1 ≠ none) := by
  intro s ctx dec enc
  refine ⟨?_, ?_, rfl, Iff.rfl⟩
  · intro e he
    subst he
    exact ⟨rfl, fun _ => rfl⟩
  · intro req hreq
    subst hreq
    rfl

/-- Witness for C3: a failing decode on the sample server yields the Unknown
response mentioning the decode error, for a codec whose encode succeeds. -/
theorem serveMRPC_spec_witness :
    (sampleServer.ServeMRPC 0 (.error plainErr) (fun _ => none)).1 =
      { ErrorCode := .Unknown, ErrorText := "decode request: m", Body := [] } ∧
    (sampleServer.ServeMRPC 0 (.ok reqOk) (fun _ => none)).1 =
      (sampleServer.Execute 0 reqOk).1 ∧
    (sampleServer.ServeMRPC 0 (.error plainErr) (fun _ => none)).2 = none := by
  refine ⟨?_, ?_, ?_⟩
  · have h := ((serveMRPC_spec sampleServer 0 (.error plainErr)
      (fun _ => none)).1 plainErr rfl).1
    rw [h]
    decide
  · exact (serveMRPC_spec sampleServer 0 (.ok reqOk) (fun _ => none)).2.1 reqOk rfl
  · have h := (serveMRPC_spec sampleServer 0 (.error plainErr)
      (fun _ => none)).2.2.1
    rw [h]

end Mrpc
